import Mathlib

/-!
Verification of the Forgejo forge backend (src/ubi/src/forgejo.rs).

The development shallowly embeds the Rust source: the `Forgejo` struct and its
three `Forge`-trait operations `release_info_url`, `maybe_add_token_header`
and `fetch_assets`.  The external `url` crate is modelled by a `Url` record
that keeps the components the program reads or writes (scheme, host, port,
path segments, the cannot-be-a-base flag); `PathSegmentsMut::push` is modelled
by `Url.pushSegment`, including its percent-encoding of the pushed segment
(WHATWG path-segment encode set for special schemes), its skipping of the
literal segments "." and "..", and its replacement of the root path "/"
(a single empty segment) by the pushed segment.  A Rust panic
(`unwrap` / `expect`) is modelled by returning `none`.
-/

/-- Hex digit used by percent-encoding (uppercase, as the url crate emits). -/
def hexDigitChar (n : Nat) : Char :=
  if n < 10 then Char.ofNat (48 + n) else Char.ofNat (55 + n)

/-- UTF-8 bytes of a character, for percent-encoding of non-ASCII input. -/
def utf8Bytes (c : Char) : List Nat :=
  let n := c.toNat
  if n < 0x80 then [n]
  else if n < 0x800 then [0xC0 + n / 0x40, 0x80 + n % 0x40]
  else if n < 0x10000 then
    [0xE0 + n / 0x1000, 0x80 + (n / 0x40) % 0x40, 0x80 + n % 0x40]
  else
    [0xF0 + n / 0x40000, 0x80 + (n / 0x1000) % 0x40, 0x80 + (n / 0x40) % 0x40, 0x80 + n % 0x40]

/-- Characters the url crate's path-segment encoder passes through unchanged:
visible ASCII other than space, `"`, `<`, `>`, `` ` ``, `#`, `?`, the two curly
braces, `/`, `%` and `\` (the SPECIAL_PATH_SEGMENT percent-encode set used for
http(s) URLs; controls, DEL and non-ASCII bytes are always encoded). -/
def isPathSegmentSafe (c : Char) : Bool :=
  0x20 < c.toNat && c.toNat < 0x7F &&
    !([ '\"', '<', '>', '`', '#', '?', '\x7b', '\x7d', '/', '%', '\\'].contains c)

/-- Percent-encoding of one character of a path segment. -/
def encodeChar (c : Char) : List Char :=
  if isPathSegmentSafe c then [c]
  else (utf8Bytes c).foldr (fun b acc => '%' :: hexDigitChar (b / 16) :: hexDigitChar (b % 16) :: acc) []

/-- Percent-encoding of a whole path segment, as `PathSegmentsMut::push` applies it. -/
def encodeSegment (s : String) : String :=
  String.mk (s.data.foldr (fun c acc => encodeChar c ++ acc) [])

/-- Model of `url::Url` restricted to the components this program reads or
writes.  `pathSegments` holds the serialized path's `/`-separated segments
(already percent-encoded); an http(s) URL whose path is just `/` has the
single empty segment `[""]`.  `cannotBeABase` is the url crate's
cannot-be-a-base flag: `Url::path_segments_mut` returns `Err` exactly when it
is set (never for http/https URLs), which makes the source's
`.expect("could not get path segments for url")` panic. -/
structure Url where
  scheme : String
  cannotBeABase : Bool
  host : String
  port : Option Nat
  pathSegments : List String
deriving DecidableEq

/-- Model of `PathSegmentsMut::push`: the literal segments "." and ".." are
skipped; otherwise the percent-encoded segment is appended, except that a root
path (single empty segment) is replaced by it. -/
def Url.pushSegment (u : Url) (seg : String) : Url :=
  if seg = "." ∨ seg = ".." then u
  else if u.pathSegments = [""] then { u with pathSegments := [encodeSegment seg] }
  else { u with pathSegments := u.pathSegments ++ [encodeSegment seg] }

/-- The serialized path of a segment list, without its leading slash. -/
def joinChars : List String → List Char
  | [] => []
  | [s] => s.data
  | s :: rest => s.data ++ '/' :: joinChars rest

/-- The characters of a URL's serialized path (always starts with '/'). -/
def urlPathChars (u : Url) : List Char :=
  '/' :: joinChars u.pathSegments

/-- The full serialization of a URL in this model. -/
def urlString (u : Url) : String :=
  u.scheme ++ "://" ++ u.host ++
    (match u.port with
     | some p => ":" ++ toString p
     | none => "") ++ String.mk (urlPathChars u)

/-- A root path (`[""]`) disappears when a first segment is pushed onto it;
this helper names the surviving part of a base URL's segment list. -/
def rootStrip (segs : List String) : List String :=
  if segs = [""] then [] else segs

/-- Model of Rust's `str::split` on one separator character, on character
lists: `"a//b"` gives `["a","","b"]`, `""` gives `[""]`. -/
def splitChar (sep : Char) : List Char → List (List Char)
  | [] => [[]]
  | c :: cs =>
    if c = sep then [] :: splitChar sep cs
    else
      match splitChar sep cs with
      | t :: ts => (c :: t) :: ts
      | [] => [[c]]

/-- Rust's `s.split(sep)` with all items collected in order; the source's
`parts.next()` calls read this list from the front. -/
def rustSplit (s : String) (sep : Char) : List String :=
  (splitChar sep s.data).map (fun l => String.mk l)

/-- The `Forgejo` struct (src/ubi/src/forgejo.rs lines 10-15). -/
structure Forgejo where
  project_name : String
  tag : Option String
  api_base_url : Url
  token : Option String
deriving DecidableEq

/-- `Forge::release_info_url` for `Forgejo` (src/ubi/src/forgejo.rs lines
52-76).  The two `parts.next().unwrap()` calls and the
`path_segments_mut().expect(..)` calls are panics, modelled by `none`. -/
def release_info_url (f : Forgejo) : Option Url :=
  match rustSplit f.project_name '/' with
  | owner :: repo :: _ =>
    if f.api_base_url.cannotBeABase then none
    else
      let url := ((((f.api_base_url.pushSegment "repos").pushSegment owner).pushSegment
        repo).pushSegment "releases")
      match f.tag with
      | some tag => some ((url.pushSegment "tags").pushSegment tag)
      | none => some (url.pushSegment "latest")
  | _ => none

/-- The api_base_url of the repository's own `api_base_url` unit test
(src/ubi/src/forgejo.rs lines 193-206): `https://codeberg.example.com/api/v1`. -/
def exBase : Url :=
  { scheme := "https", cannotBeABase := false, host := "codeberg.example.com",
    port := none, pathSegments := ["api", "v1"] }

/-- The error taxonomy of the spec (section 7).  `InvalidProjectName` is part
of the taxonomy but is never produced by the Forgejo backend, which panics on
a malformed `project_name` instead. -/
inductive ForgeError where
  | InvalidProjectName
  | InvalidToken
  | RequestFailed
  | DecodeFailed
deriving DecidableEq

/-- A byte (here: character, since a character's UTF-8 bytes are all valid
exactly when the character is) that `http::HeaderValue::from_str` accepts:
horizontal tab or any byte that is at least 0x20 and is not DEL. -/
def isValidHeaderChar (c : Char) : Bool :=
  c = '\t' || (0x20 ≤ c.toNat && c.toNat ≠ 0x7F)

/-- Model of `reqwest::header::HeaderValue`: the value string plus the
sensitivity flag set by `set_sensitive`. -/
structure HeaderValue where
  value : String
  sensitive : Bool
deriving DecidableEq

/-- `HeaderValue::from_str`: fails exactly when some character is not a valid
header-value byte; a fresh value is not sensitive. -/
def HeaderValue.from_str (s : String) : Except ForgeError HeaderValue :=
  if s.data.all isValidHeaderChar then .ok { value := s, sensitive := false }
  else .error .InvalidToken

/-- Model of `reqwest::RequestBuilder` for a GET request: the target URL and
the headers accumulated so far.  `RequestBuilder::header` appends (header
names in the http crate are lowercase; `AUTHORIZATION` is "authorization"). -/
structure RequestBuilder where
  url : Url
  headers : List (String × HeaderValue)
deriving DecidableEq

/-- The authorization headers of a request builder. -/
def authHeaders (rb : RequestBuilder) : List (String × HeaderValue) :=
  rb.headers.filter (fun h => h.1 == "authorization")

/-- `Forge::maybe_add_token_header` for `Forgejo` (src/ubi/src/forgejo.rs
lines 78-89): with a token, build the value `"token {token}"`, fail if it is
not a valid header value (the `?` on `HeaderValue::from_str`), mark it
sensitive and append it as the `AUTHORIZATION` header; without a token,
return the builder unchanged.  It performs no network I/O (it is a pure
function of the instance and the builder). -/
def maybe_add_token_header (f : Forgejo) (req_builder : RequestBuilder) :
    Except ForgeError RequestBuilder :=
  match f.token with
  | some token =>
    let bearer := "token " ++ token
    match HeaderValue.from_str bearer with
    | .error e => .error e
    | .ok auth_val =>
      .ok { req_builder with
        headers := req_builder.headers ++ [("authorization", { auth_val with sensitive := true })] }
  | none => .ok req_builder

/-- JSON values, the shape `serde_json` produces from a successfully parsed
body; object member order is the textual order. -/
inductive Json where
  | null
  | bool (b : Bool)
  | num (n : Int)
  | str (s : String)
  | arr (elems : List Json)
  | obj (members : List (String × Json))

/-- A response body: either text that is not valid JSON at all, or the JSON
value it parses to.  (The text-to-JSON parse of `serde_json` is abstracted to
this alternative; both a parse failure and a schema mismatch surface as the
same decode error of `Response::json::<Release>()`.) -/
inductive Body where
  | invalid
  | json (j : Json)

/-- Digits-only numeral parse, for the port of `parseUrl`. -/
def parseNatDigits (ds : List Char) : Option Nat :=
  if !ds.isEmpty && ds.all Char.isDigit then
    some (ds.foldl (fun n c => n * 10 + (c.toNat - 48)) 0)
  else none

/-- Split `scheme://rest` at the first "://". -/
def splitScheme : List Char → Option (List Char × List Char)
  | [] => none
  | c :: cs =>
    if c = ':' then
      match cs with
      | '/' :: '/' :: rest => some ([], rest)
      | _ => none
    else (splitScheme cs).map (fun p => (c :: p.1, p.2))

/-- Model of `url::Url::parse` restricted to the simple absolute URLs this
development needs: `scheme://host[:port][/path]` with no userinfo, query,
fragment or characters needing percent-encoding.  `serde`'s `Deserialize` for
`Url` parses the JSON string with `Url::parse` and fails when it is not an
absolute URL. -/
def parseUrl (s : String) : Option Url :=
  match splitScheme s.data with
  | none => none
  | some (schemeChars, rest) =>
    if schemeChars.isEmpty then none
    else
      let hostPort := rest.takeWhile (fun c => c != '/')
      let pathChars := rest.dropWhile (fun c => c != '/')
      let host := hostPort.takeWhile (fun c => c != ':')
      let portPart := hostPort.dropWhile (fun c => c != ':')
      if host.isEmpty then none
      else
        match portPart with
        | [] =>
          some { scheme := String.mk schemeChars, cannotBeABase := false,
                 host := String.mk host, port := none, pathSegments := pathSegsOf pathChars }
        | ':' :: ds =>
          match parseNatDigits ds with
          | some p =>
            some { scheme := String.mk schemeChars, cannotBeABase := false,
                   host := String.mk host, port := some p, pathSegments := pathSegsOf pathChars }
          | none => none
        | _ => none
where
  pathSegsOf : List Char → List String
    | [] => [""]
    | _ :: tail => (splitChar '/' tail).map (fun l => String.mk l)

/-- The forge-agnostic `Asset` record (`crate::ubi::Asset`; its definition is
outside src/, but its shape `{name, url}` is fixed by the spec's data model
and by this file's uses). -/
structure Asset where
  name : String
  url : Url
deriving DecidableEq

/-- The `ForgejoAsset` deserialization target (src/ubi/src/forgejo.rs lines
25-28). -/
structure ForgejoAsset where
  name : String
  browser_download_url : Url
deriving DecidableEq

/-- The `Release` deserialization target (src/ubi/src/forgejo.rs lines 20-23). -/
structure Release where
  assets : List ForgejoAsset
deriving DecidableEq

/-- serde's deserialization of a `String` field value: the JSON value must be
a string. -/
def strFieldValue : Json → Except ForgeError String
  | .str s => .ok s
  | _ => .error .DecodeFailed

/-- serde's deserialization of a `Url` field value: the JSON value must be a
string that `Url::parse` accepts. -/
def urlFieldValue : Json → Except ForgeError Url
  | .str s =>
    match parseUrl s with
    | some u => .ok u
    | none => .error .DecodeFailed
  | _ => .error .DecodeFailed

/-- Field loop of serde's derived `Deserialize` for `ForgejoAsset`: members
are consumed in order; an unknown field is ignored, a duplicate known field
is an error, a wrong-typed value is an error, and at the end both fields must
have been seen. -/
def assetFieldsLoop : List (String × Json) → Option String → Option Url →
    Except ForgeError ForgejoAsset
  | [], nameAcc, urlAcc =>
    match nameAcc, urlAcc with
    | some name, some u => .ok { name := name, browser_download_url := u }
    | _, _ => .error .DecodeFailed
  | (k, v) :: rest, nameAcc, urlAcc =>
    if k = "name" then
      match nameAcc, strFieldValue v with
      | none, .ok s => assetFieldsLoop rest (some s) urlAcc
      | none, .error e => .error e
      | some _, _ => .error .DecodeFailed
    else if k = "browser_download_url" then
      match urlAcc, urlFieldValue v with
      | none, .ok u => assetFieldsLoop rest nameAcc (some u)
      | none, .error e => .error e
      | some _, _ => .error .DecodeFailed
    else assetFieldsLoop rest nameAcc urlAcc

/-- serde's `Deserialize` for one `ForgejoAsset`: the value must be an object. -/
def decodeAsset : Json → Except ForgeError ForgejoAsset
  | .obj members => assetFieldsLoop members none none
  | _ => .error .DecodeFailed

/-- serde's `Deserialize` for `Vec<ForgejoAsset>`: elements in order, first
error aborts. -/
def decodeAssetList : List Json → Except ForgeError (List ForgejoAsset)
  | [] => .ok []
  | j :: rest =>
    match decodeAsset j with
    | .error e => .error e
    | .ok a =>
      match decodeAssetList rest with
      | .error e => .error e
      | .ok as => .ok (a :: as)

/-- serde's deserialization of a `Vec<ForgejoAsset>` field value: the JSON
value must be an array of asset objects. -/
def assetsFieldValue : Json → Except ForgeError (List ForgejoAsset)
  | .arr elems => decodeAssetList elems
  | _ => .error .DecodeFailed

/-- Field loop of serde's derived `Deserialize` for `Release`. -/
def releaseFieldsLoop : List (String × Json) → Option (List ForgejoAsset) →
    Except ForgeError Release
  | [], acc =>
    match acc with
    | some assets => .ok { assets := assets }
    | none => .error .DecodeFailed
  | (k, v) :: rest, acc =>
    if k = "assets" then
      match acc, assetsFieldValue v with
      | none, .ok as => releaseFieldsLoop rest (some as)
      | none, .error e => .error e
      | some _, _ => .error .DecodeFailed
    else releaseFieldsLoop rest acc

/-- `Response::json::<Release>()`: a body that is not valid JSON, or whose
JSON value is not an object matching the `Release` schema, is a decode
failure (`DecodeFailed` in the spec's taxonomy). -/
def decodeRelease : Body → Except ForgeError Release
  | .invalid => .error .DecodeFailed
  | .json (.obj members) => releaseFieldsLoop members none
  | .json _ => .error .DecodeFailed

/-- An HTTP response: status code and body. -/
structure HttpResponse where
  status : Nat
  body : Body

/-- What the network returns for a sent request: a transport-level failure or
a response.  A concrete `Client` is a function from the built request to such
an outcome; the model has no other channel to the network, so the operations
before the send are network-free by construction. -/
inductive HttpOutcome where
  | transportError
  | success (resp : HttpResponse)

/-- Modelled from the spec: `Forge::make_release_info_request` is a provided
method of the `Forge` trait (src/ubi/src/forge.rs, not under src/).  Per
spec section 4.1 it builds the GET request at `release_info_url()`, routes it
through `maybe_add_token_header`, sends it once (no retries), and surfaces a
transport failure or a non-2xx status as a `RequestFailed` error.  The outer
`Option` propagates a `release_info_url` panic. -/
def make_release_info_request (f : Forgejo) (client : RequestBuilder → HttpOutcome) :
    Option (Except ForgeError HttpResponse) :=
  match release_info_url f with
  | none => none
  | some url =>
    some (match maybe_add_token_header f { url := url, headers := [] } with
      | .error e => .error e
      | .ok rb =>
        match client rb with
        | .transportError => .error .RequestFailed
        | .success resp =>
          if 200 ≤ resp.status && resp.status ≤ 299 then .ok resp
          else .error .RequestFailed)

/-- `Forge::fetch_assets` for `Forgejo` (src/ubi/src/forgejo.rs lines 33-50):
make the release-info request, decode the body as a `Release`, and map each
`ForgejoAsset` to an `Asset`, keeping the platform's order (`into_iter().map
(..).collect()` neither filters nor re-sorts).  The outer `Option` propagates
a `release_info_url` panic; every failure is a typed `ForgeError`. -/
def fetch_assets (f : Forgejo) (client : RequestBuilder → HttpOutcome) :
    Option (Except ForgeError (List Asset)) :=
  match make_release_info_request f client with
  | none => none
  | some (.error e) => some (.error e)
  | some (.ok resp) =>
    some (match decodeRelease resp.body with
      | .error e => .error e
      | .ok release =>
        .ok (release.assets.map (fun asset =>
          { name := asset.name, url := asset.browser_download_url })))

/-- `EndsWith s t`: the character list `s` ends with the character list `t`. -/
def EndsWith (s t : List Char) : Prop :=
  ∃ u, s = u ++ t

/-- What one `pushSegment` contributes to the segment list (when not pushed
onto a root path): nothing for "." and "..", otherwise the encoded segment. -/
def dotFilter (s : String) : List String :=
  if s = "." ∨ s = ".." then [] else [encodeSegment s]

/-- The segments the tag branch (`Some`) or the latest branch (`None`) of
`release_info_url` appends after `releases`. -/
def tagSegs : Option String → List String
  | some t => "tags" :: dotFilter t
  | none => ["latest"]

/-- A URL matches the "latest" endpoint pattern
`/repos/{owner}/{repo}/releases/latest` when its final path segments are
`releases/latest`. -/
def MatchesLatestPattern (u : Url) : Prop :=
  ∃ pre, u.pathSegments = pre ++ ["releases", "latest"]

/-- A URL matches the "specific tag" endpoint pattern
`/repos/{owner}/{repo}/releases/tags/{tag}` when its final path segments are
`tags/{t}` for some `t`. -/
def MatchesTagsPattern (u : Url) : Prop :=
  ∃ pre t, u.pathSegments = pre ++ ["tags", t]

/-- The instance of the repository's `api_base_url` unit test. -/
def fgLatest : Forgejo :=
  { project_name := "houseabsolute/ubi", tag := none, api_base_url := exBase, token := none }

/-- The URL that test asserts:
`https://codeberg.example.com/api/v1/repos/houseabsolute/ubi/releases/latest`. -/
def urlLatest : Url :=
  { exBase with
    pathSegments := ["api", "v1", "repos", "houseabsolute", "ubi", "releases", "latest"] }

/-- C1's counterexample instance: the owner segment `"a b"` contains a space,
which `pushSegment` percent-encodes. -/
def fgC1x : Forgejo :=
  { project_name := "a b/ubi", tag := none, api_base_url := exBase, token := none }

/-- The URL `release_info_url` builds for `fgC1x`: the owner position holds
`a%20b`, not the literal owner. -/
def urlC1x : Url :=
  { exBase with pathSegments := ["api", "v1", "repos", "a%20b", "ubi", "releases", "latest"] }

/-- C2's counterexample instance: the tag `"v 1.0"` contains a space. -/
def fgC2x : Forgejo :=
  { project_name := "houseabsolute/ubi", tag := some "v 1.0", api_base_url := exBase,
    token := none }

/-- The URL `release_info_url` builds for `fgC2x`: the tag position holds
`v%201.0`. -/
def urlC2x : Url :=
  { exBase with
    pathSegments := ["api", "v1", "repos", "houseabsolute", "ubi", "releases", "tags", "v%201.0"] }

/-- A cannot-be-a-base URL, as `Url::parse("data:text/plain,x")` yields: such
a URL has no hierarchical path, so `path_segments_mut()` returns `Err` and
the source's `.expect(..)` panics.  (The host and segment fields are unused
for it.) -/
def nonHierBase : Url :=
  { scheme := "data", cannotBeABase := true, host := "", port := none, pathSegments := [] }

/-- C7's counterexample instance: a well-formed `project_name` together with
a cannot-be-a-base `api_base_url`. -/
def fgC7x : Forgejo :=
  { project_name := "houseabsolute/ubi", tag := none, api_base_url := nonHierBase, token := none }

/-- Transcription of src/ubi/src/forgejo.rs lines 17-18: the source contains
the manual declarations `unsafe impl Send for Forgejo {}` and
`unsafe impl Sync for Forgejo {}`, i.e. it asserts thread-shareability with
an unsafe override instead of letting the compiler derive it from the fields
(all of which are plain owned data: `String`, `Option<String>`, `Url`). -/
def forgejoAssertsSendSyncManually : Bool := true

/-- The JSON object of one well-formed asset entry, with its name, its
`browser_download_url` string, and the URL that string parses to. -/
def assetJson (e : String × String × Url) : Json :=
  .obj [("name", .str e.1), ("browser_download_url", .str e.2.1)]

/-- The release JSON body `{"assets": [...]}` holding the given entries. -/
def releaseJson (entries : List (String × String × Url)) : Json :=
  .obj [("assets", .arr (entries.map assetJson))]

/-- The asset URL used by the repository's `fetch_assets` tests:
`https://codeberg.org/api/v1/repos/owner/repo/releases/assets/1`. -/
def asset1Url : Url :=
  { scheme := "https", cannotBeABase := false, host := "codeberg.org", port := none,
    pathSegments := ["api", "v1", "repos", "owner", "repo", "releases", "assets", "1"] }

theorem splitChar_cons_of_not_mem (sep : Char) (xs ys : List Char) (h : sep ∉ xs) :
    splitChar sep (xs ++ sep :: ys) = xs :: splitChar sep ys := by
  induction xs with
  | nil => simp [splitChar]
  | cons c cs ih =>
    have hc : ¬ c = sep := by rintro rfl; exact h (List.mem_cons_self _ _)
    have h' : sep ∉ cs := fun hm => h (List.mem_cons_of_mem _ hm)
    simp [splitChar, hc, ih h']

theorem splitChar_of_not_mem (sep : Char) (xs : List Char) (h : sep ∉ xs) :
    splitChar sep xs = [xs] := by
  induction xs with
  | nil => rfl
  | cons c cs ih =>
    have hc : ¬ c = sep := by rintro rfl; exact h (List.mem_cons_self _ _)
    have h' : sep ∉ cs := fun hm => h (List.mem_cons_of_mem _ hm)
    simp [splitChar, hc, ih h']

theorem data_slash_append (owner repo : String) :
    (owner ++ "/" ++ repo).data = owner.data ++ '/' :: repo.data := by
  simp [String.data_append]

theorem rustSplit_two (owner repo : String) (ho : '/' ∉ owner.data) (hr : '/' ∉ repo.data) :
    rustSplit (owner ++ "/" ++ repo) '/' = [owner, repo] := by
  rw [rustSplit, data_slash_append, splitChar_cons_of_not_mem _ _ _ ho,
    splitChar_of_not_mem _ _ hr]
  rfl

theorem encodeChars_id (l : List Char) (h : l.all isPathSegmentSafe = true) :
    l.foldr (fun c acc => encodeChar c ++ acc) [] = l := by
  induction l with
  | nil => rfl
  | cons c cs ih =>
    rw [List.all_cons, Bool.and_eq_true] at h
    rw [List.foldr_cons, ih h.2, encodeChar, if_pos h.1]
    rfl

theorem encodeSegment_of_safe (s : String) (h : s.data.all isPathSegmentSafe = true) :
    encodeSegment s = s := by
  cases s with
  | mk data => rw [encodeSegment, encodeChars_id _ h]

theorem not_slash_of_safe (s : String) (h : s.data.all isPathSegmentSafe = true) :
    '/' ∉ s.data := by
  intro hm
  exact absurd (List.all_eq_true.mp h _ hm) (by decide)

theorem dotFilter_eq (s : String) (h1 : ¬ s = ".") (h2 : ¬ s = "..")
    (hs : s.data.all isPathSegmentSafe = true) : dotFilter s = [s] := by
  simp [dotFilter, h1, h2, encodeSegment_of_safe s hs]

theorem push_nonroot (u : Url) (seg : String) (h : ¬ u.pathSegments = [""]) :
    u.pushSegment seg = { u with pathSegments := u.pathSegments ++ dotFilter seg } := by
  by_cases hd : seg = "." ∨ seg = ".."
  · simp [Url.pushSegment, dotFilter, hd]
  · simp [Url.pushSegment, dotFilter, hd, h]

theorem push_root (u : Url) (seg : String) (h : u.pathSegments = [""])
    (h1 : ¬ seg = ".") (h2 : ¬ seg = "..") :
    u.pushSegment seg = { u with pathSegments := [encodeSegment seg] } := by
  simp [Url.pushSegment, h, h1, h2]

theorem cons_mid_ne_root (l₁ l₂ : List String) (s : String) (hs : ¬ s = "") :
    ¬ l₁ ++ s :: l₂ = [""] := by
  intro h
  cases l₁ with
  | nil =>
    rw [List.nil_append] at h
    exact hs (List.cons_eq_cons.mp h).1
  | cons a as =>
    rw [List.cons_append] at h
    have := (List.cons_eq_cons.mp h).2
    exact absurd this (by simp)

theorem push_start (u : Url) :
    u.pushSegment "repos" = { u with pathSegments := rootStrip u.pathSegments ++ ["repos"] } := by
  by_cases h : u.pathSegments = [""]
  · rw [push_root u _ h (by decide) (by decide)]
    simp [rootStrip, h]
    decide
  · rw [push_nonroot u _ h]
    simp [rootStrip, h]
    decide

theorem mem_ne_root (l : List String) (s : String) (hs : ¬ s = "") (hm : s ∈ l) :
    ¬ l = [""] := by
  rintro rfl
  simp at hm
  exact hs hm

/-- The path segments `release_info_url` builds, for any base URL that has
path segments and any exact owner/repo decomposition of `project_name`: the
base's segments (with a lone root segment dropped), then `repos`, the encoded
owner and repo (dropped when they are `.` or `..`), `releases`, and the
branch selected by `tag`. -/
theorem release_info_url_spec (f : Forgejo) (owner repo : String)
    (hpn : f.project_name = owner ++ "/" ++ repo)
    (ho : '/' ∉ owner.data) (hr : '/' ∉ repo.data)
    (hb : f.api_base_url.cannotBeABase = false) :
    release_info_url f = some { f.api_base_url with
      pathSegments := rootStrip f.api_base_url.pathSegments ++
        "repos" :: (dotFilter owner ++ (dotFilter repo ++ "releases" :: tagSegs f.tag)) } := by
  have hsplit : rustSplit f.project_name '/' = [owner, repo] := by
    rw [hpn]; exact rustSplit_two owner repo ho hr
  have hrepos : ("repos" : String) ∈ rootStrip f.api_base_url.pathSegments ++ ["repos"] := by
    simp
  have h1 := mem_ne_root _ _ (by decide) hrepos
  have hrepos2 : ("repos" : String) ∈
      (rootStrip f.api_base_url.pathSegments ++ ["repos"]) ++ dotFilter owner :=
    List.mem_append_left _ hrepos
  have h2 := mem_ne_root _ _ (by decide) hrepos2
  have hrepos3 : ("repos" : String) ∈
      ((rootStrip f.api_base_url.pathSegments ++ ["repos"]) ++ dotFilter owner) ++
        dotFilter repo :=
    List.mem_append_left _ hrepos2
  have h3 := mem_ne_root _ _ (by decide) hrepos3
  have hrepos4 : ("repos" : String) ∈
      (((rootStrip f.api_base_url.pathSegments ++ ["repos"]) ++ dotFilter owner) ++
        dotFilter repo) ++ dotFilter "releases" :=
    List.mem_append_left _ hrepos3
  have h4 := mem_ne_root _ _ (by decide) hrepos4
  have hrepos5 : ("repos" : String) ∈
      ((((rootStrip f.api_base_url.pathSegments ++ ["repos"]) ++ dotFilter owner) ++
        dotFilter repo) ++ dotFilter "releases") ++ dotFilter "tags" :=
    List.mem_append_left _ hrepos4
  have h5 := mem_ne_root _ _ (by decide) hrepos5
  cases htag : f.tag with
  | none =>
    simp only [release_info_url, hsplit, hb, htag, Bool.false_eq_true, if_false]
    rw [push_start, push_nonroot _ owner h1, push_nonroot _ repo h2,
      push_nonroot _ "releases" h3, push_nonroot _ "latest" h4]
    simp [tagSegs, List.append_assoc]
    exact ⟨hb, by decide⟩
  | some t =>
    simp only [release_info_url, hsplit, hb, htag, Bool.false_eq_true, if_false]
    rw [push_start, push_nonroot _ owner h1, push_nonroot _ repo h2,
      push_nonroot _ "releases" h3, push_nonroot _ "tags" h4, push_nonroot _ t h5]
    simp [tagSegs, List.append_assoc]
    refine ⟨hb, ?_⟩
    rw [show dotFilter "releases" = ["releases"] from by decide,
      show dotFilter "tags" = ["tags"] from by decide]
    rfl

theorem joinChars_append (xs ys : List String) (hx : ¬ xs = []) (hy : ¬ ys = []) :
    joinChars (xs ++ ys) = joinChars xs ++ '/' :: joinChars ys := by
  induction xs with
  | nil => exact absurd rfl hx
  | cons x xs ih =>
    cases xs with
    | nil =>
      cases ys with
      | nil => exact absurd rfl hy
      | cons y ys => simp [joinChars]
    | cons x2 xs2 =>
      rw [List.cons_append]
      have : ¬ (x2 :: xs2) = [] := by simp
      calc joinChars (x :: ((x2 :: xs2) ++ ys))
          = x.data ++ '/' :: joinChars ((x2 :: xs2) ++ ys) := by
            cases ys with
            | nil => exact absurd rfl hy
            | cons y ys => simp [joinChars]
        _ = x.data ++ '/' :: (joinChars (x2 :: xs2) ++ '/' :: joinChars ys) := by
            rw [ih this]
        _ = joinChars (x :: x2 :: xs2) ++ '/' :: joinChars ys := by
            simp [joinChars, List.append_assoc]

theorem urlPath_suffix (pre news : List String) (h : ¬ news = []) :
    EndsWith ('/' :: joinChars (pre ++ news)) ('/' :: joinChars news) := by
  cases pre with
  | nil => exact ⟨[], by simp⟩
  | cons p ps =>
    rw [joinChars_append _ _ (by simp) h]
    exact ⟨'/' :: joinChars (p :: ps), by simp⟩

theorem endsWith_drop (s t : List Char) (h : EndsWith s t) :
    s.drop (s.length - t.length) = t := by
  obtain ⟨u, rfl⟩ := h
  have hl : (u ++ t).length - t.length = u.length := by simp
  rw [hl, List.drop_left]

theorem append_pair_inj {α : Type} (l₁ l₂ : List α) (a b c d : α)
    (h : l₁ ++ [a, b] = l₂ ++ [c, d]) : a = c ∧ b = d := by
  have := (List.append_inj' h rfl).2
  exact ⟨(List.cons_eq_cons.mp this).1,
    (List.cons_eq_cons.mp (List.cons_eq_cons.mp this).2).1⟩

theorem latest_suffix_chars (owner repo : String) :
    ("/repos/" ++ owner ++ "/" ++ repo ++ "/releases/latest").data =
      '/' :: joinChars ["repos", owner, repo, "releases", "latest"] := by
  have h1 : ("/repos/" : String).data = '/' :: "repos".data ++ ['/'] := rfl
  have h2 : ("/" : String).data = ['/'] := rfl
  have h3 : ("/releases/latest" : String).data =
      '/' :: "releases".data ++ '/' :: "latest".data := rfl
  simp [String.data_append, joinChars, h1, h2, h3, List.append_assoc]

theorem tags_suffix_chars (t : String) :
    ("/tags/" ++ t).data = '/' :: joinChars ["tags", t] := by
  have h1 : ("/tags/" : String).data = '/' :: "tags".data ++ ['/'] := rfl
  simp [String.data_append, joinChars, h1, List.append_assoc]

/-- Inversion for `release_info_url`: whenever it returns a URL at all, that
URL keeps every component of `api_base_url` except the path, whose segments
are the base's (a lone root segment dropped) followed by `repos`, two
segments derived from the first two `/`-separated parts of `project_name`,
`releases`, and the tag/latest branch. -/
theorem release_info_url_some (f : Forgejo) (u : Url) (h : release_info_url f = some u) :
    ∃ a b, f.api_base_url.cannotBeABase = false ∧
      u = { f.api_base_url with
        pathSegments := rootStrip f.api_base_url.pathSegments ++
          "repos" :: (dotFilter a ++ (dotFilter b ++ "releases" :: tagSegs f.tag)) } := by
  rcases hsplit : rustSplit f.project_name '/' with _ | ⟨a, _ | ⟨b, rest⟩⟩
  · rw [release_info_url, hsplit] at h
    exact Option.noConfusion h
  · rw [release_info_url, hsplit] at h
    exact Option.noConfusion h
  · refine ⟨a, b, ?_⟩
    by_cases hcb : f.api_base_url.cannotBeABase = true
    · simp only [release_info_url, hsplit, hcb, if_true] at h
      exact Option.noConfusion h
    · have hb : f.api_base_url.cannotBeABase = false := by
        revert hcb; cases f.api_base_url.cannotBeABase <;> simp
      refine ⟨hb, ?_⟩
      have hrepos : ("repos" : String) ∈ rootStrip f.api_base_url.pathSegments ++ ["repos"] := by
        simp
      have h1 := mem_ne_root _ _ (by decide) hrepos
      have hrepos2 : ("repos" : String) ∈
          (rootStrip f.api_base_url.pathSegments ++ ["repos"]) ++ dotFilter a :=
        List.mem_append_left _ hrepos
      have h2 := mem_ne_root _ _ (by decide) hrepos2
      have hrepos3 : ("repos" : String) ∈
          ((rootStrip f.api_base_url.pathSegments ++ ["repos"]) ++ dotFilter a) ++
            dotFilter b :=
        List.mem_append_left _ hrepos2
      have h3 := mem_ne_root _ _ (by decide) hrepos3
      have hrepos4 : ("repos" : String) ∈
          (((rootStrip f.api_base_url.pathSegments ++ ["repos"]) ++ dotFilter a) ++
            dotFilter b) ++ dotFilter "releases" :=
        List.mem_append_left _ hrepos3
      have h4 := mem_ne_root _ _ (by decide) hrepos4
      have hrepos5 : ("repos" : String) ∈
          ((((rootStrip f.api_base_url.pathSegments ++ ["repos"]) ++ dotFilter a) ++
            dotFilter b) ++ dotFilter "releases") ++ dotFilter "tags" :=
        List.mem_append_left _ hrepos4
      have h5 := mem_ne_root _ _ (by decide) hrepos5
      cases htag : f.tag with
      | none =>
        simp only [release_info_url, hsplit, hb, htag, Bool.false_eq_true, if_false] at h
        rw [push_start, push_nonroot _ a h1, push_nonroot _ b h2,
          push_nonroot _ "releases" h3, push_nonroot _ "latest" h4] at h
        obtain rfl := Option.some.inj h
        simp [tagSegs, List.append_assoc]
        decide
      | some t =>
        simp only [release_info_url, hsplit, hb, htag, Bool.false_eq_true, if_false] at h
        rw [push_start, push_nonroot _ a h1, push_nonroot _ b h2,
          push_nonroot _ "releases" h3, push_nonroot _ "tags" h4, push_nonroot _ t h5] at h
        obtain rfl := Option.some.inj h
        simp [tagSegs, List.append_assoc]
        rw [show dotFilter "releases" = ["releases"] from by decide,
          show dotFilter "tags" = ["tags"] from by decide]
        rfl

theorem urlPathChars_extend (bs rest : List String) :
    ∃ tail, '/' :: joinChars (rootStrip bs ++ "repos" :: rest) = ('/' :: joinChars bs) ++ tail := by
  by_cases h0 : bs = [""]
  · subst h0
    exact ⟨joinChars ("repos" :: rest), by simp [rootStrip, joinChars]⟩
  · by_cases h1 : bs = []
    · subst h1
      exact ⟨joinChars ("repos" :: rest), by simp [rootStrip, joinChars]⟩
    · refine ⟨'/' :: joinChars ("repos" :: rest), ?_⟩
      rw [rootStrip, if_neg h0, joinChars_append _ _ h1 (by simp)]
      simp

/-- C1, counterexample to the claim as stated: for the well-formed
`project_name = "a b/ubi"` (exactly two `/`-separated segments) with
`tag = None`, `release_info_url()` percent-encodes the owner segment, so the
built URL's path is `/api/v1/repos/a%20b/ubi/releases/latest` and does not
end with the literal suffix `/repos/a b/ubi/releases/latest`: the owner/repo
position holds the encoded owner, not `owner` itself. -/
theorem c1_percent_encoding_counterexample :
    release_info_url fgC1x = some urlC1x ∧
      ¬ EndsWith (urlPathChars urlC1x) ("/repos/a b/ubi/releases/latest").data := by
  refine ⟨by decide, fun h => ?_⟩
  exact absurd (endsWith_drop _ _ h) (by decide)

/-- C1 (amended): for every Forge instance whose `api_base_url` is not
cannot-be-a-base (any http(s) URL), whose `project_name` is
`owner ++ "/" ++ repo` with `owner` and `repo` made of characters the
path-segment percent-encoder leaves unchanged and neither equal to `.` or
`..`, and whose `tag` is `None`: `release_info_url()` returns (without
panicking) a URL with the base's scheme, host and port whose path segments
are the base's followed by exactly `repos / owner / repo / releases /
latest` — so the serialized path ends with
`/repos/{owner}/{repo}/releases/latest` and `owner` and `repo` each occur
exactly once, in the owner/repo positions.  The function is pure: the URL is
computed from the instance's fields alone, with no network access. -/
theorem c1_latest_url_amended (f : Forgejo) (owner repo : String)
    (hpn : f.project_name = owner ++ "/" ++ repo)
    (hos : owner.data.all isPathSegmentSafe = true)
    (hrs : repo.data.all isPathSegmentSafe = true)
    (ho1 : ¬ owner = ".") (ho2 : ¬ owner = "..")
    (hr1 : ¬ repo = ".") (hr2 : ¬ repo = "..")
    (htag : f.tag = none)
    (hb : f.api_base_url.cannotBeABase = false) :
    ∃ u, release_info_url f = some u ∧
      u.scheme = f.api_base_url.scheme ∧ u.host = f.api_base_url.host ∧
      u.port = f.api_base_url.port ∧
      u.pathSegments = rootStrip f.api_base_url.pathSegments ++
        ["repos", owner, repo, "releases", "latest"] ∧
      EndsWith (urlPathChars u)
        ("/repos/" ++ owner ++ "/" ++ repo ++ "/releases/latest").data := by
  have ho := not_slash_of_safe owner hos
  have hr := not_slash_of_safe repo hrs
  have hmain := release_info_url_spec f owner repo hpn ho hr hb
  rw [htag] at hmain
  have hseg : rootStrip f.api_base_url.pathSegments ++
      "repos" :: (dotFilter owner ++ (dotFilter repo ++ "releases" :: tagSegs none)) =
      rootStrip f.api_base_url.pathSegments ++ ["repos", owner, repo, "releases", "latest"] := by
    rw [dotFilter_eq owner ho1 ho2 hos, dotFilter_eq repo hr1 hr2 hrs]
    rfl
  refine ⟨_, hmain, rfl, rfl, rfl, hseg, ?_⟩
  show EndsWith ('/' :: joinChars (rootStrip f.api_base_url.pathSegments ++
    "repos" :: (dotFilter owner ++ (dotFilter repo ++ "releases" :: tagSegs none)))) _
  rw [hseg, latest_suffix_chars]
  exact urlPath_suffix _ _ (by simp)

/-- C2, counterexample to the claim as stated: for the well-formed
`project_name = "houseabsolute/ubi"` and `tag = Some "v 1.0")`, the tag is
percent-encoded, so the built URL's path ends with `/tags/v%201.0`, not with
the literal `/tags/v 1.0`. -/
theorem c2_tag_url_counterexample :
    release_info_url fgC2x = some urlC2x ∧
      ¬ EndsWith (urlPathChars urlC2x) ("/tags/v 1.0").data := by
  refine ⟨by decide, fun h => ?_⟩
  exact absurd (endsWith_drop _ _ h) (by decide)

/-- C2 (amended): for every Forge instance with a hierarchical base URL, a
`project_name = owner ++ "/" ++ repo` (owner and repo free of `/`) and
`tag = Some t` where `t` is made of characters the percent-encoder leaves
unchanged and is not `.` or `..`: the built URL's path ends with
`.../tags/{t}`, its final path segments match the tags pattern `tags/{t}`,
and it never simultaneously matches the "latest" pattern (final segments
`releases/latest`); conversely the same instance with `tag = None` builds a
URL matching the latest pattern and not the tags pattern.  The two branches
are thus mutually exclusive, selected purely by whether `tag` is
`Some`/`None`.  (A tag needing percent-encoding appears encoded.) -/
theorem c2_tag_url_amended (f : Forgejo) (owner repo t : String)
    (hpn : f.project_name = owner ++ "/" ++ repo)
    (ho : '/' ∉ owner.data) (hr : '/' ∉ repo.data)
    (hts : t.data.all isPathSegmentSafe = true)
    (ht1 : ¬ t = ".") (ht2 : ¬ t = "..")
    (htag : f.tag = some t)
    (hb : f.api_base_url.cannotBeABase = false) :
    ∃ u, release_info_url f = some u ∧
      EndsWith (urlPathChars u) (("/tags/" ++ t).data) ∧
      MatchesTagsPattern u ∧ ¬ MatchesLatestPattern u ∧
      ∀ u', release_info_url { f with tag := none } = some u' →
        MatchesLatestPattern u' ∧ ¬ MatchesTagsPattern u' := by
  have hmain := release_info_url_spec f owner repo hpn ho hr hb
  rw [htag] at hmain
  have hseg : rootStrip f.api_base_url.pathSegments ++
      "repos" :: (dotFilter owner ++ (dotFilter repo ++ "releases" :: tagSegs (some t))) =
      (rootStrip f.api_base_url.pathSegments ++
        "repos" :: (dotFilter owner ++ (dotFilter repo ++ ["releases"]))) ++ ["tags", t] := by
    rw [tagSegs, dotFilter_eq t ht1 ht2 hts]
    simp [List.append_assoc]
  refine ⟨_, hmain, ?_, ?_, ?_, ?_⟩
  · show EndsWith ('/' :: joinChars (rootStrip f.api_base_url.pathSegments ++
      "repos" :: (dotFilter owner ++ (dotFilter repo ++ "releases" :: tagSegs (some t))))) _
    rw [hseg, tags_suffix_chars]
    exact urlPath_suffix _ _ (by simp)
  · exact ⟨_, _, hseg⟩
  · rintro ⟨pre, hp⟩
    rw [hseg] at hp
    exact absurd (append_pair_inj _ _ _ _ _ _ hp).1 (by decide)
  · intro u' hu'
    have hmain' := release_info_url_spec { f with tag := none } owner repo hpn ho hr hb
    rw [hmain'] at hu'
    obtain rfl := (Option.some.inj hu').symm
    have hseg' : rootStrip f.api_base_url.pathSegments ++
        "repos" :: (dotFilter owner ++ (dotFilter repo ++ "releases" ::
          tagSegs (none : Option String))) =
        (rootStrip f.api_base_url.pathSegments ++
          "repos" :: (dotFilter owner ++ dotFilter repo)) ++ ["releases", "latest"] := by
      rw [tagSegs]
      simp [List.append_assoc]
    constructor
    · exact ⟨_, hseg'⟩
    · rintro ⟨pre, t', hp⟩
      rw [hseg'] at hp
      exact absurd (append_pair_inj _ _ _ _ _ _ hp).1 (by decide)

/-- C7, counterexample to the claim as stated: `fgC7x` has the well-formed
`project_name = "houseabsolute/ubi"` (exactly two `/`-separated segments),
yet `release_info_url()` panics, because its `api_base_url` is a
cannot-be-a-base URL (as `data:` URLs are), so `path_segments_mut()` returns
`Err` and the `.expect("could not get path segments for url")` branch is
taken (`none` models the panic). -/
theorem c7_no_panic_counterexample : release_info_url fgC7x = none := by
  decide

/-- C7 (amended): for every Forge instance whose `project_name` is composed
of exactly two `/`-separated segments and whose `api_base_url` is not a
cannot-be-a-base URL (every http(s) URL qualifies), `release_info_url()`
does not panic: both `parts.next().unwrap()` calls succeed and no
`.expect(..)` branch is taken, so a URL is returned. -/
theorem c7_no_panic_amended (f : Forgejo) (owner repo : String)
    (hpn : f.project_name = owner ++ "/" ++ repo)
    (ho : '/' ∉ owner.data) (hr : '/' ∉ repo.data)
    (hb : f.api_base_url.cannotBeABase = false) :
    (release_info_url f).isSome = true := by
  rw [release_info_url_spec f owner repo hpn ho hr hb]
  rfl

/-- C9: whenever `release_info_url()` returns a URL, that URL has the same
scheme, host and port as `api_base_url` (and the same cannot-be-a-base
flag): only the path changes.  The base path is preserved as a prefix: if
the base has a non-root path, the result's segments are the base's segments
extended by the appended ones, and in every case the serialized base path is
a prefix of the serialized result path (a base of `https://host/api/v1`
yields `https://host/api/v1/repos/...`). -/
theorem c9_base_url_frame (f : Forgejo) (u : Url) (h : release_info_url f = some u) :
    u.scheme = f.api_base_url.scheme ∧ u.host = f.api_base_url.host ∧
    u.port = f.api_base_url.port ∧ u.cannotBeABase = f.api_base_url.cannotBeABase ∧
    (¬ f.api_base_url.pathSegments = [""] →
      ∃ rest, u.pathSegments = f.api_base_url.pathSegments ++ rest) ∧
    ∃ tail, urlPathChars u = urlPathChars f.api_base_url ++ tail := by
  obtain ⟨a, b, hb, rfl⟩ := release_info_url_some f u h
  refine ⟨rfl, rfl, rfl, rfl, ?_, ?_⟩
  · intro hne
    exact ⟨_, by rw [show rootStrip f.api_base_url.pathSegments =
      f.api_base_url.pathSegments from by rw [rootStrip, if_neg hne]]⟩
  · exact urlPathChars_extend _ _

/-- C10: for every `project_name` of the shape `a/b/<anything>` — two or
more `/`-separated segments — `release_info_url()` uses only the first
segment as owner and the second as repo: the extra tail changes nothing
(`"a/b/c"` builds the same URL as `"a/b"`), and no error is raised for the
extra segments (with a hierarchical base the call still returns a URL). -/
theorem c10_extra_segments_ignored (base : Url) (tag tok : Option String) (a b c : String)
    (ha : '/' ∉ a.data) (hbn : '/' ∉ b.data) :
    release_info_url (Forgejo.mk (a ++ "/" ++ b ++ "/" ++ c) tag base tok) =
      release_info_url (Forgejo.mk (a ++ "/" ++ b) tag base tok) ∧
    (base.cannotBeABase = false →
      (release_info_url (Forgejo.mk (a ++ "/" ++ b ++ "/" ++ c) tag base tok)).isSome = true) := by
  have hdata : (a ++ "/" ++ b ++ "/" ++ c).data = a.data ++ '/' :: (b.data ++ '/' :: c.data) := by
    simp [String.data_append]
  have hsplit3 : rustSplit (a ++ "/" ++ b ++ "/" ++ c) '/' =
      a :: b :: (splitChar '/' c.data).map (fun l => String.mk l) := by
    rw [rustSplit, hdata, splitChar_cons_of_not_mem _ _ _ ha,
      splitChar_cons_of_not_mem _ _ _ hbn]
    rfl
  have hsplit2 : rustSplit (a ++ "/" ++ b) '/' = [a, b] := rustSplit_two a b ha hbn
  have heq : release_info_url (Forgejo.mk (a ++ "/" ++ b ++ "/" ++ c) tag base tok) =
      release_info_url (Forgejo.mk (a ++ "/" ++ b) tag base tok) := by
    rw [release_info_url, release_info_url, hsplit3, hsplit2]
  refine ⟨heq, fun hb => ?_⟩
  rw [heq, release_info_url_spec (Forgejo.mk (a ++ "/" ++ b) tag base tok) a b rfl ha hbn hb]
  rfl

/-- C8 (evidence): the source does assert thread-shareability manually — the
declarations `unsafe impl Send for Forgejo {}` and `unsafe impl Sync for
Forgejo {}` are present at src/ubi/src/forgejo.rs lines 17-18 — contradicting
the claim that no unsafe Send/Sync assertion is used. -/
theorem c8_send_sync_assertion_present : forgejoAssertsSendSyncManually = true := rfl

/-- C4: for every Forge instance with `token = Some t` and any request
builder carrying no Authorization header yet (as the protocol's freshly
built GET request does), `maybe_add_token_header` fails with an
`InvalidToken`-kind error exactly when the token cannot be encoded as a
valid HTTP header value, and on success the resulting builder carries
exactly one Authorization header, whose value is byte-for-byte
`"token {t}"`, marked sensitive; the target URL is untouched.  The function
is pure (no network I/O). -/
theorem c4_token_header (f : Forgejo) (t : String) (rb : RequestBuilder)
    (hf : f.token = some t)
    (h0 : authHeaders rb = []) :
    (maybe_add_token_header f rb = .error .InvalidToken ↔
      ¬ t.data.all isValidHeaderChar = true) ∧
    (∀ rb', maybe_add_token_header f rb = .ok rb' →
      authHeaders rb' = [("authorization", HeaderValue.mk ("token " ++ t) true)] ∧
      rb'.url = rb.url) := by
  have hall : ("token " ++ t).data.all isValidHeaderChar = t.data.all isValidHeaderChar := by
    rw [String.data_append, List.all_append,
      show ("token " : String).data.all isValidHeaderChar = true from by decide, Bool.true_and]
  rw [authHeaders] at h0
  by_cases hv : t.data.all isValidHeaderChar = true
  · have hfs : HeaderValue.from_str ("token " ++ t) =
        .ok (HeaderValue.mk ("token " ++ t) false) := by
      rw [HeaderValue.from_str, hall, if_pos hv]
    have hmat : maybe_add_token_header f rb = .ok { rb with headers :=
        rb.headers ++ [("authorization", HeaderValue.mk ("token " ++ t) true)] } := by
      simp only [maybe_add_token_header, hf, hfs]
    rw [hmat]
    refine ⟨⟨fun h => by exact absurd h (by simp), fun h => absurd hv h⟩, fun rb' hok => ?_⟩
    obtain rfl := (Except.ok.inj hok).symm
    refine ⟨?_, rfl⟩
    rw [authHeaders]
    simp only [List.filter_append, h0, List.nil_append]
    simp
  · have hfs : HeaderValue.from_str ("token " ++ t) = .error .InvalidToken := by
      rw [HeaderValue.from_str, hall, if_neg hv]
    have hmat : maybe_add_token_header f rb = .error .InvalidToken := by
      simp only [maybe_add_token_header, hf, hfs]
    rw [hmat]
    exact ⟨⟨fun _ => hv, fun _ => rfl⟩, fun rb' h => by exact absurd h (by simp)⟩

/-- C5: for every Forge instance with `token = None` and every request
builder, `maybe_add_token_header` succeeds and returns the builder
unchanged; in particular, when no Authorization header was present, none is
present afterwards. -/
theorem c5_no_token_unchanged (f : Forgejo) (rb : RequestBuilder) (hf : f.token = none) :
    maybe_add_token_header f rb = .ok rb ∧
    (authHeaders rb = [] →
      ∀ rb', maybe_add_token_header f rb = .ok rb' → authHeaders rb' = []) := by
  have h1 : maybe_add_token_header f rb = .ok rb := by
    simp only [maybe_add_token_header, hf]
  refine ⟨h1, fun h0 rb' hok => ?_⟩
  rw [h1] at hok
  obtain rfl := Except.ok.inj hok
  exact h0

theorem decodeAsset_assetJson (e : String × String × Url) (h : parseUrl e.2.1 = some e.2.2) :
    decodeAsset (assetJson e) = .ok (ForgejoAsset.mk e.1 e.2.2) := by
  obtain ⟨n, us, u⟩ := e
  simp only at h
  simp [assetJson, decodeAsset, assetFieldsLoop, strFieldValue, urlFieldValue, h]

theorem decodeAssetList_map (entries : List (String × String × Url))
    (h : ∀ e ∈ entries, parseUrl e.2.1 = some e.2.2) :
    decodeAssetList (entries.map assetJson) =
      .ok (entries.map (fun e => ForgejoAsset.mk e.1 e.2.2)) := by
  induction entries with
  | nil => rfl
  | cons e rest ih =>
    rw [List.map_cons, List.map_cons, decodeAssetList,
      decodeAsset_assetJson e (h e (List.mem_cons_self _ _)),
      ih (fun e' he' => h e' (List.mem_cons_of_mem _ he'))]

theorem decodeRelease_releaseJson (entries : List (String × String × Url))
    (h : ∀ e ∈ entries, parseUrl e.2.1 = some e.2.2) :
    decodeRelease (.json (releaseJson entries)) =
      .ok (Release.mk (entries.map (fun e => ForgejoAsset.mk e.1 e.2.2))) := by
  simp [decodeRelease, releaseJson, releaseFieldsLoop, assetsFieldValue,
    decodeAssetList_map entries h]

theorem strFieldValue_error (v : Json) (e : ForgeError) (h : strFieldValue v = .error e) :
    e = .DecodeFailed := by
  cases v <;>
    first
      | exact (Except.error.inj h).symm
      | exact absurd h (by simp [strFieldValue])

theorem urlFieldValue_error (v : Json) (e : ForgeError) (h : urlFieldValue v = .error e) :
    e = .DecodeFailed := by
  cases v with
  | str s =>
    rw [urlFieldValue] at h
    split at h
    · exact absurd h (by simp)
    · exact (Except.error.inj h).symm
  | null => exact (Except.error.inj h).symm
  | bool b => exact (Except.error.inj h).symm
  | num n => exact (Except.error.inj h).symm
  | arr xs => exact (Except.error.inj h).symm
  | obj ms => exact (Except.error.inj h).symm

theorem assetFieldsLoop_error (members : List (String × Json)) :
    ∀ nacc uacc e, assetFieldsLoop members nacc uacc = .error e → e = .DecodeFailed := by
  induction members with
  | nil =>
    intro nacc uacc e h
    cases nacc with
    | none => exact (Except.error.inj h).symm
    | some n =>
      cases uacc with
      | none => exact (Except.error.inj h).symm
      | some u => exact absurd h (by simp [assetFieldsLoop])
  | cons kv rest ih =>
    intro nacc uacc e h
    obtain ⟨k, v⟩ := kv
    simp only [assetFieldsLoop] at h
    split at h
    · split at h
      · exact ih _ _ _ h
      · rename_i e' heq
        exact (Except.error.inj h).symm.trans (strFieldValue_error _ e' heq)
      · exact (Except.error.inj h).symm
    · split at h
      · split at h
        · exact ih _ _ _ h
        · rename_i e' heq
          exact (Except.error.inj h).symm.trans (urlFieldValue_error _ e' heq)
        · exact (Except.error.inj h).symm
      · exact ih _ _ _ h

theorem decodeAsset_error (j : Json) (e : ForgeError) (h : decodeAsset j = .error e) :
    e = .DecodeFailed := by
  cases j with
  | obj members => exact assetFieldsLoop_error members none none e h
  | null => exact (Except.error.inj h).symm
  | bool b => exact (Except.error.inj h).symm
  | num n => exact (Except.error.inj h).symm
  | str s => exact (Except.error.inj h).symm
  | arr xs => exact (Except.error.inj h).symm

theorem decodeAssetList_error (l : List Json) :
    ∀ e, decodeAssetList l = .error e → e = .DecodeFailed := by
  induction l with
  | nil => intro e h; exact absurd h (by simp [decodeAssetList])
  | cons j rest ih =>
    intro e h
    rw [decodeAssetList] at h
    split at h
    · rename_i e' hj
      exact (Except.error.inj h).symm.trans (decodeAsset_error j e' hj)
    · split at h
      · rename_i a hj e' hrest
        exact (Except.error.inj h).symm.trans (ih e' hrest)
      · exact absurd h (by simp)

theorem assetsFieldValue_error (v : Json) (e : ForgeError) (h : assetsFieldValue v = .error e) :
    e = .DecodeFailed := by
  cases v with
  | arr elems => exact decodeAssetList_error elems e h
  | null => exact (Except.error.inj h).symm
  | bool b => exact (Except.error.inj h).symm
  | num n => exact (Except.error.inj h).symm
  | str s => exact (Except.error.inj h).symm
  | obj ms => exact (Except.error.inj h).symm

theorem releaseFieldsLoop_error (members : List (String × Json)) :
    ∀ acc e, releaseFieldsLoop members acc = .error e → e = .DecodeFailed := by
  induction members with
  | nil =>
    intro acc e h
    cases acc with
    | none => exact (Except.error.inj h).symm
    | some assets => exact absurd h (by simp [releaseFieldsLoop])
  | cons kv rest ih =>
    intro acc e h
    obtain ⟨k, v⟩ := kv
    simp only [releaseFieldsLoop] at h
    split at h
    · split at h
      · exact ih _ _ h
      · rename_i e' heq
        exact (Except.error.inj h).symm.trans (assetsFieldValue_error _ e' heq)
      · exact (Except.error.inj h).symm
    · exact ih _ _ h

theorem decodeRelease_error (b : Body) (e : ForgeError) (h : decodeRelease b = .error e) :
    e = .DecodeFailed := by
  cases b with
  | invalid => exact (Except.error.inj h).symm
  | json j =>
    cases j with
    | obj members => exact releaseFieldsLoop_error members none e h
    | null => exact (Except.error.inj h).symm
    | bool b => exact (Except.error.inj h).symm
    | num n => exact (Except.error.inj h).symm
    | str s => exact (Except.error.inj h).symm
    | arr xs => exact (Except.error.inj h).symm

/-- C3: when the server answers 200 with the release JSON
`{"assets": [...]}` holding N well-formed asset entries (each a JSON object
with a `name` string and a `browser_download_url` string parsing to a URL),
`fetch_assets` returns exactly the N `Asset` values obtained by mapping each
entry's `name` and `browser_download_url` in place: same length, same order
(no re-sorting), fields copied entry by entry. -/
theorem c3_fetch_assets_roundtrip (f : Forgejo) (u : Url) (rb : RequestBuilder)
    (entries : List (String × String × Url))
    (hurl : release_info_url f = some u)
    (htok : maybe_add_token_header f (RequestBuilder.mk u []) = .ok rb)
    (hparse : ∀ e ∈ entries, parseUrl e.2.1 = some e.2.2) :
    fetch_assets f (fun _ => .success (HttpResponse.mk 200 (.json (releaseJson entries)))) =
      some (.ok (entries.map (fun e => Asset.mk e.1 e.2.2))) ∧
    (entries.map (fun e => Asset.mk e.1 e.2.2)).length = entries.length := by
  refine ⟨?_, by simp⟩
  have hreq : make_release_info_request f
      (fun _ => .success (HttpResponse.mk 200 (.json (releaseJson entries)))) =
      some (.ok (HttpResponse.mk 200 (.json (releaseJson entries)))) := by
    rw [make_release_info_request, hurl]
    simp only [htok]
    simp
  simp only [fetch_assets, hreq, decodeRelease_releaseJson entries hparse]
  simp [List.map_map]

/-- C6: with any instance whose request construction succeeds,
`fetch_assets` surfaces failures as typed errors, with no silent default and
no partial asset list: a 200 response whose body does not decode as the
release schema yields a `DecodeFailed`-kind error, and a response with a
non-success status (such as 404) yields a `RequestFailed`-kind error. -/
theorem c6_fetch_assets_errors (f : Forgejo) (u : Url) (rb : RequestBuilder)
    (hurl : release_info_url f = some u)
    (htok : maybe_add_token_header f (RequestBuilder.mk u []) = .ok rb) :
    (∀ body : Body, (∀ r, ¬ decodeRelease body = .ok r) →
      fetch_assets f (fun _ => .success (HttpResponse.mk 200 body)) =
        some (.error .DecodeFailed)) ∧
    (∀ (status : Nat) (body : Body), ¬ (200 ≤ status ∧ status ≤ 299) →
      fetch_assets f (fun _ => .success (HttpResponse.mk status body)) =
        some (.error .RequestFailed)) := by
  constructor
  · intro body hbad
    have hreq : make_release_info_request f
        (fun _ => .success (HttpResponse.mk 200 body)) =
        some (.ok (HttpResponse.mk 200 body)) := by
      rw [make_release_info_request, hurl]
      simp only [htok]
      simp
    simp only [fetch_assets, hreq]
    cases hd : decodeRelease body with
    | ok r => exact absurd hd (hbad r)
    | error e =>
      have hDF := decodeRelease_error body e hd
      subst hDF
      simp [hd]
  · intro status body hst
    have hc : ¬ (200 ≤ status && status ≤ 299) = true := by
      simp only [Bool.and_eq_true, decide_eq_true_iff]
      exact fun h => hst ⟨h.1, h.2⟩
    have hreq : make_release_info_request f
        (fun _ => .success (HttpResponse.mk status body)) =
        some (.error .RequestFailed) := by
      rw [make_release_info_request, hurl]
      simp only [htok, if_neg hc]
    simp only [fetch_assets, hreq]

/-- Witness for C1's amended theorem, at the instance of the repository's
`api_base_url` unit test. -/
theorem c1_latest_url_amended_witness :
    fgLatest.project_name = "houseabsolute" ++ "/" ++ "ubi" ∧
    "houseabsolute".data.all isPathSegmentSafe = true ∧
    "ubi".data.all isPathSegmentSafe = true ∧
    ∃ u, release_info_url fgLatest = some u ∧
      u.scheme = fgLatest.api_base_url.scheme ∧ u.host = fgLatest.api_base_url.host ∧
      u.port = fgLatest.api_base_url.port ∧
      u.pathSegments = rootStrip fgLatest.api_base_url.pathSegments ++
        ["repos", "houseabsolute", "ubi", "releases", "latest"] ∧
      EndsWith (urlPathChars u)
        ("/repos/" ++ "houseabsolute" ++ "/" ++ "ubi" ++ "/releases/latest").data :=
  ⟨by decide, by decide, by decide,
    c1_latest_url_amended fgLatest "houseabsolute" "ubi" (by decide) (by decide) (by decide)
      (by decide) (by decide) (by decide) (by decide) rfl rfl⟩

/-- Witness for C2's amended theorem, at the tag `v1.0.0` the repository's
`fetch_assets_with_tag` test uses. -/
theorem c2_tag_url_amended_witness :
    ∃ u, release_info_url (Forgejo.mk "houseabsolute/ubi" (some "v1.0.0") exBase none) =
        some u ∧
      EndsWith (urlPathChars u) (("/tags/" ++ "v1.0.0").data) ∧
      MatchesTagsPattern u ∧ ¬ MatchesLatestPattern u ∧
      ∀ u', release_info_url
          { Forgejo.mk "houseabsolute/ubi" (some "v1.0.0") exBase none with tag := none } =
          some u' →
        MatchesLatestPattern u' ∧ ¬ MatchesTagsPattern u' :=
  c2_tag_url_amended (Forgejo.mk "houseabsolute/ubi" (some "v1.0.0") exBase none)
    "houseabsolute" "ubi" "v1.0.0" (by decide) (by decide) (by decide) (by decide)
    (by decide) (by decide) rfl rfl

/-- Witness for C3 at the repository test's data: one asset named `asset1`
with download URL
`https://codeberg.org/api/v1/repos/owner/repo/releases/assets/1`. -/
theorem c3_fetch_assets_roundtrip_witness :
    fetch_assets fgLatest (fun _ => .success (HttpResponse.mk 200 (.json (releaseJson
        [("asset1", "https://codeberg.org/api/v1/repos/owner/repo/releases/assets/1",
          asset1Url)])))) =
      some (.ok ([("asset1", "https://codeberg.org/api/v1/repos/owner/repo/releases/assets/1",
        asset1Url)].map (fun e => Asset.mk e.1 e.2.2))) ∧
    ([("asset1", "https://codeberg.org/api/v1/repos/owner/repo/releases/assets/1",
      asset1Url)].map (fun e => Asset.mk e.1 e.2.2)).length =
      [("asset1", "https://codeberg.org/api/v1/repos/owner/repo/releases/assets/1",
        asset1Url)].length :=
  c3_fetch_assets_roundtrip fgLatest urlLatest (RequestBuilder.mk urlLatest [])
    [("asset1", "https://codeberg.org/api/v1/repos/owner/repo/releases/assets/1", asset1Url)]
    (by decide) rfl (by decide)

/-- Witness for C4 at the token the repository's `fetch_assets_with_token`
test uses. -/
theorem c4_token_header_witness :
    authHeaders (RequestBuilder.mk urlLatest []) = [] ∧
    (maybe_add_token_header
        (Forgejo.mk "houseabsolute/ubi" none exBase (some "glpat-fakeToken"))
        (RequestBuilder.mk urlLatest []) = .error .InvalidToken ↔
      ¬ "glpat-fakeToken".data.all isValidHeaderChar = true) ∧
    (∀ rb', maybe_add_token_header
        (Forgejo.mk "houseabsolute/ubi" none exBase (some "glpat-fakeToken"))
        (RequestBuilder.mk urlLatest []) = .ok rb' →
      authHeaders rb' =
        [("authorization", HeaderValue.mk ("token " ++ "glpat-fakeToken") true)] ∧
      rb'.url = (RequestBuilder.mk urlLatest []).url) ∧
    maybe_add_token_header
        (Forgejo.mk "houseabsolute/ubi" none exBase (some "glpat-fakeToken"))
        (RequestBuilder.mk urlLatest []) =
      .ok (RequestBuilder.mk urlLatest
        [("authorization", HeaderValue.mk "token glpat-fakeToken" true)]) :=
  ⟨rfl,
    (c4_token_header (Forgejo.mk "houseabsolute/ubi" none exBase (some "glpat-fakeToken"))
      "glpat-fakeToken" (RequestBuilder.mk urlLatest []) rfl rfl).1,
    (c4_token_header (Forgejo.mk "houseabsolute/ubi" none exBase (some "glpat-fakeToken"))
      "glpat-fakeToken" (RequestBuilder.mk urlLatest []) rfl rfl).2,
    by rfl⟩

/-- Witness for C5: without a token the builder passes through unchanged. -/
theorem c5_no_token_unchanged_witness :
    maybe_add_token_header fgLatest (RequestBuilder.mk urlLatest []) =
      .ok (RequestBuilder.mk urlLatest []) ∧
    (authHeaders (RequestBuilder.mk urlLatest []) = [] →
      ∀ rb', maybe_add_token_header fgLatest (RequestBuilder.mk urlLatest []) = .ok rb' →
        authHeaders rb' = []) :=
  c5_no_token_unchanged fgLatest (RequestBuilder.mk urlLatest []) rfl

/-- Witness for C6: a 200 response with a non-JSON body fails with
`DecodeFailed`; a 404 response fails with `RequestFailed`. -/
theorem c6_fetch_assets_errors_witness :
    fetch_assets fgLatest (fun _ => .success (HttpResponse.mk 200 .invalid)) =
      some (.error .DecodeFailed) ∧
    fetch_assets fgLatest (fun _ => .success (HttpResponse.mk 404 .invalid)) =
      some (.error .RequestFailed) :=
  ⟨(c6_fetch_assets_errors fgLatest urlLatest (RequestBuilder.mk urlLatest [])
      (by decide) rfl).1 .invalid (fun r h => by exact Except.noConfusion h),
    (c6_fetch_assets_errors fgLatest urlLatest (RequestBuilder.mk urlLatest [])
      (by decide) rfl).2 404 .invalid (by decide)⟩

/-- Witness for C7's amended theorem: with the http(s) test base URL the
construction returns a URL. -/
theorem c7_no_panic_amended_witness : (release_info_url fgLatest).isSome = true :=
  c7_no_panic_amended fgLatest "houseabsolute" "ubi" (by decide) (by decide) (by decide) rfl

/-- Witness for C9, reproducing the repository's `api_base_url` unit test:
the base `https://codeberg.example.com/api/v1` yields
`https://codeberg.example.com/api/v1/repos/houseabsolute/ubi/releases/latest`,
with scheme, host, port and the base path preserved. -/
theorem c9_base_url_frame_witness :
    release_info_url fgLatest = some urlLatest ∧
    (urlLatest.scheme = fgLatest.api_base_url.scheme ∧
      urlLatest.host = fgLatest.api_base_url.host ∧
      urlLatest.port = fgLatest.api_base_url.port ∧
      urlLatest.cannotBeABase = fgLatest.api_base_url.cannotBeABase ∧
      (¬ fgLatest.api_base_url.pathSegments = [""] →
        ∃ rest, urlLatest.pathSegments = fgLatest.api_base_url.pathSegments ++ rest) ∧
      ∃ tail, urlPathChars urlLatest = urlPathChars fgLatest.api_base_url ++ tail) ∧
    urlString urlLatest =
      "https://codeberg.example.com/api/v1/repos/houseabsolute/ubi/releases/latest" :=
  ⟨by decide, c9_base_url_frame fgLatest urlLatest (by decide), by decide⟩

/-- Witness for C10: `"a/b/c"` builds the same URL as `"a/b"`, and still
succeeds. -/
theorem c10_extra_segments_ignored_witness :
    (release_info_url (Forgejo.mk ("a" ++ "/" ++ "b" ++ "/" ++ "c") none exBase none) =
      release_info_url (Forgejo.mk ("a" ++ "/" ++ "b") none exBase none)) ∧
    (exBase.cannotBeABase = false →
      (release_info_url
        (Forgejo.mk ("a" ++ "/" ++ "b" ++ "/" ++ "c") none exBase none)).isSome = true) :=
  c10_extra_segments_ignored exBase none none "a" "b" "c" (by decide) (by decide)
